import Mathlib

/-!
Shallow embedding of the `quest4ione/subleq` repository.

The repository contains two iterations of a subleq virtual machine:

* `src/subleq/src/lib.rs` (together with `error.rs` and `memory.rs`): an engine
  whose program counter is a `usize`, whose memory is addressed by `usize`, and
  whose fetched cell values are converted to addresses with the primitive
  `as` cast (`AsPrimitive<usize>`).  Its subtraction `b_value - a_value` is the
  plain Rust `-`, which aborts on overflow under overflow checks.  We model it
  in namespace `UsizeEngine`.

* `src/src/lib.rs`: an engine generic over a `Memory<T>` trait whose addresses
  are values of the numeric type `T` itself, and whose arithmetic is
  `wrapping_sub` / `wrapping_add`.  We model it in namespace `GenericEngine`.

Machine integers of width `w` are modelled as `Int` with explicit reduction
modulo `2 ^ w`; `usize` is modelled as `Nat` with explicit reduction modulo
`2 ^ 64`.  A Rust method on `&mut self` returning `Result` is modelled as a
function returning the (possibly updated) state together with an
`Except Error Unit`; a possible panic is modelled by an `Option` layer,
`none` meaning the computation aborted.
-/

namespace SubleqModel

/-- The representable range of a `w`-bit two's-complement signed integer. -/
def inRangeS (w : Nat) (v : Int) : Prop :=
  -((2 : Int) ^ (w - 1)) ≤ v ∧ v < (2 : Int) ^ (w - 1)

instance (w : Nat) (v : Int) : Decidable (inRangeS w v) :=
  inferInstanceAs (Decidable (_ ∧ _))

/-- Reduce an integer into the `w`-bit two's-complement range (the value a
`w`-bit register would hold). -/
def wrap (w : Nat) (v : Int) : Int :=
  (v + (2 : Int) ^ (w - 1)) % (2 : Int) ^ w - (2 : Int) ^ (w - 1)

/-- Rust `wrapping_add` on a `w`-bit signed integer. -/
def wrappingAdd (w : Nat) (x y : Int) : Int := wrap w (x + y)

/-- Rust `wrapping_sub` on a `w`-bit signed integer. -/
def wrappingSub (w : Nat) (x y : Int) : Int := wrap w (x - y)

/-- Rust plain `-` on a `w`-bit signed integer: the exact difference when it is
representable, an abort (`none`, a panic under overflow checks) otherwise. -/
def checkedSub (w : Nat) (x y : Int) : Option Int :=
  if inRangeS w (x - y) then some (x - y) else none

/-- The number of values of the 64-bit `usize` type. -/
def usizeSize : Nat := 2 ^ 64

/-- Rust `usize::wrapping_add`. -/
def usizeWrappingAdd (x y : Nat) : Nat := (x + y) % usizeSize

/-- The Rust `as` cast from a signed integer to `usize`
(`AsPrimitive<usize>::as_`): sign-extension / truncation, i.e. reduction
modulo `2 ^ 64`. -/
def asUsize (v : Int) : Nat := (v % (usizeSize : Int)).toNat

namespace UsizeEngine

/-- The error taxonomy of `src/subleq/src/error.rs` (duplicated at the top of
`src/subleq/src/lib.rs`).  The `Custom` variant's boxed payload is irrelevant
to the claims and is modelled without data.  Note there is no
address-conversion variant. -/
inductive Error where
  | addressOutOfRange (addr : Nat)
  | immutableAddress (addr : Nat)
  | custom
deriving DecidableEq, Repr

/-- `LinearMemory<T, SIZE>` from `src/subleq/src/memory.rs`: a fixed array of
`SIZE` cells. -/
structure LinearMemory (SIZE : Nat) where
  cells : Fin SIZE → Int

/-- The zero-initialized `Default` of `LinearMemory`. -/
def LinearMemory.default (SIZE : Nat) : LinearMemory SIZE :=
  ⟨fun _ => 0⟩

/-- `LinearMemory::get`: `self.0.get(address).ok_or(AddressOutOfRange(address)).copied()`. -/
def LinearMemory.get {SIZE : Nat} (m : LinearMemory SIZE) (address : Nat) :
    Except Error Int :=
  if h : address < SIZE then .ok (m.cells ⟨address, h⟩)
  else .error (.addressOutOfRange address)

/-- `LinearMemory::set`: `self.0.get_mut(address).ok_or(AddressOutOfRange(address))?`
then write through the reference.  The first component is the memory after the
call (unchanged when the call fails). -/
def LinearMemory.set {SIZE : Nat} (m : LinearMemory SIZE) (address : Nat)
    (value : Int) : LinearMemory SIZE × Except Error Unit :=
  if h : address < SIZE then
    (⟨Function.update m.cells ⟨address, h⟩ value⟩, .ok ())
  else (m, .error (.addressOutOfRange address))

/-- The machine state of `Subleq<T, M>` from `src/subleq/src/lib.rs`,
instantiated at `M = LinearMemory<T, SIZE>` with `T` a `w`-bit signed integer:
a memory plus the `usize` field `curr_instruction`. -/
structure Subleq (w SIZE : Nat) where
  mem : LinearMemory SIZE
  curr_instruction : Nat

/-- `Subleq::step` from `src/subleq/src/lib.rs`:

1. fetch the three cells at `curr_instruction`, `curr_instruction.wrapping_add(1)`,
   `curr_instruction.wrapping_add(2)` and convert each with `.as_()`;
2. read the values at `a` and `b`;
3. `result = b_value - a_value` (plain subtraction; aborts on overflow);
4. `self.mem.set(b, result)?`;
5. if `!result.is_positive()` jump to `c`, else `curr_instruction.wrapping_add(3)`.

`none` models the abort in step 3; otherwise the outcome is the state after the
call together with the returned `Result`. -/
def Subleq.step {w SIZE : Nat} (s : Subleq w SIZE) :
    Option (Subleq w SIZE × Except Error Unit) :=
  match s.mem.get s.curr_instruction with
  | .error e => some (s, .error e)
  | .ok va =>
    match s.mem.get (usizeWrappingAdd s.curr_instruction 1) with
    | .error e => some (s, .error e)
    | .ok vb =>
      match s.mem.get (usizeWrappingAdd s.curr_instruction 2) with
      | .error e => some (s, .error e)
      | .ok vc =>
        match s.mem.get (asUsize va) with
        | .error e => some (s, .error e)
        | .ok a_value =>
          match s.mem.get (asUsize vb) with
          | .error e => some (s, .error e)
          | .ok b_value =>
            match checkedSub w b_value a_value with
            | none => none
            | some result =>
              match s.mem.set (asUsize vb) result with
              | (mem', .error e) => some ({ s with mem := mem' }, .error e)
              | (mem', .ok _) =>
                if 0 < result then
                  some ({ mem := mem',
                          curr_instruction := usizeWrappingAdd s.curr_instruction 3 },
                        .ok ())
                else
                  some ({ mem := mem', curr_instruction := asUsize vc }, .ok ())
end UsizeEngine

namespace GenericEngine

section Defs

variable {Mem E : Type}

/-- The provided method `Memory::instruction` of the `Memory<T>` trait in
`src/src/lib.rs`:

`Ok((self.get(index)?, *self.get(&index.wrapping_add(&T::from(1i8)))?,
self.get(&index.wrapping_add(&T::from(2i8)))?))`.

The trait is modelled by its two capabilities `get` and `set`; a `w`-bit value
of `T` is an `Int`.  The source returns `(&T, T, &T)`; references are modelled
by the values behind them. -/
def instruction (w : Nat) (get : Mem → Int → Except E Int) (mem : Mem)
    (index : Int) : Except E (Int × Int × Int) :=
  match get mem index with
  | .error e => .error e
  | .ok a =>
    match get mem (wrappingAdd w index 1) with
    | .error e => .error e
    | .ok b =>
      match get mem (wrappingAdd w index 2) with
      | .error e => .error e
      | .ok c => .ok (a, b, c)

/-- The machine state of `Subleq<T, M>` from `src/src/lib.rs`: a memory `M`
plus the field `curr_instruction : T`. -/
structure Subleq (Mem : Type) where
  mem : Mem
  curr_instruction : Int

/-- `Subleq::step` from `src/src/lib.rs`:

```text
let (a, b, c) = self.mem.instruction(&self.curr_instruction)?;
let (a_value, b_value) = (self.mem.get(a)?, self.mem.get(&b)?);
let result = b_value.wrapping_sub(a_value);
if !b_value.is_positive() { self.curr_instruction = *c; }
else { self.curr_instruction = self.curr_instruction.wrapping_add(&T::from(3i8)); }
self.mem.set(&b, result)?;
```

Note two peculiarities of this iteration, both modelled exactly as written:
the branch tests `b_value` (the old value at `B`), not `result`, and the
program counter is updated before `set` is called, so a failing `set` returns
with the counter already moved. -/
def Subleq.step (w : Nat) (get : Mem → Int → Except E Int)
    (set : Mem → Int → Int → Mem × Except E Unit) (s : Subleq Mem) :
    Subleq Mem × Except E Unit :=
  match instruction w get s.mem s.curr_instruction with
  | .error e => (s, .error e)
  | .ok (a, b, c) =>
    match get s.mem a with
    | .error e => (s, .error e)
    | .ok a_value =>
      match get s.mem b with
      | .error e => (s, .error e)
      | .ok b_value =>
        let result := wrappingSub w b_value a_value
        let pc' := if 0 < b_value then wrappingAdd w s.curr_instruction 3 else c
        match set s.mem b result with
        | (mem', .error e) => ({ mem := mem', curr_instruction := pc' }, .error e)
        | (mem', .ok _) => ({ mem := mem', curr_instruction := pc' }, .ok ())

end Defs

/-- The index mapping `*index as u8 as usize` of the `ByteMemory` example
implementation of the `Memory<i8>` trait given in the documentation of
`src/src/lib.rs`. -/
def byteIdx (v : Int) : Fin 256 :=
  ⟨(v % 256).toNat, by
    have h1 := Int.emod_nonneg v (by norm_num : (256 : Int) ≠ 0)
    have h2 := Int.emod_lt_of_pos v (by norm_num : (0 : Int) < 256)
    omega⟩

/-- The backing array of the `ByteMemory` example implementation
(`struct ByteMemory([i8; 256])`) from the documentation of `src/src/lib.rs`. -/
def ByteMemory : Type := Fin 256 → Int

/-- `ByteMemory`'s trait method `get`: `Ok(&self.0[*index as u8 as usize])`
with `Error = Infallible` (modelled by `Empty`). -/
def ByteMemory.get (m : ByteMemory) (index : Int) : Except Empty Int :=
  .ok (m (byteIdx index))

/-- `ByteMemory`'s trait method `set`:
`self.0[*index as u8 as usize] = value; Ok(())`. -/
def ByteMemory.set (m : ByteMemory) (index : Int) (value : Int) :
    ByteMemory × Except Empty Unit :=
  (Function.update m (byteIdx index) value, .ok ())

/-- A further instance of the `Memory<i8>` trait, shaped like `ByteMemory` but
with every cell read-only, reporting `ImmutableAddress` (the error taxonomy's
variant for read-only cells) on every write.  Its `get` is `ByteMemory`'s. -/
def ReadOnlyByteMemory.get (m : ByteMemory) (index : Int) :
    Except UsizeEngine.Error Int :=
  .ok (m (byteIdx index))

/-- The failing `set` of the read-only instance. -/
def ReadOnlyByteMemory.set (m : ByteMemory) (index : Int) (_value : Int) :
    ByteMemory × Except UsizeEngine.Error Unit :=
  (m, .error (.immutableAddress (byteIdx index).val))

end GenericEngine

/-! Concrete machine states used to evaluate the engines at specific inputs.
All programs place the instruction `(A, B, C)` at address 0. -/

/-- A `ByteMemory` content: cells `[3, 4, 0, 5, 3, 0, ...]`, i.e. the
instruction `(A, B, C) = (3, 4, 0)` with `M[3] = 5` and `M[4] = 3`. -/
def bytes3405 : GenericEngine.ByteMemory := fun i =>
  match i.val with
  | 0 => 3 | 1 => 4 | 2 => 0 | 3 => 5 | 4 => 3 | _ => 0

/-- A generic-engine machine over `ByteMemory` holding `bytes3405`, counter 0. -/
def gm3405 : GenericEngine.Subleq GenericEngine.ByteMemory :=
  ⟨bytes3405, 0⟩

/-- A `ByteMemory` content: cells `[3, 4, 0, 1, -128, 0, ...]`, i.e. the
instruction `(3, 4, 0)` with `M[3] = 1` and `M[4] = -128`. -/
def bytesOverflow : GenericEngine.ByteMemory := fun i =>
  match i.val with
  | 0 => 3 | 1 => 4 | 2 => 0 | 3 => 1 | 4 => -128 | _ => 0

/-- A generic-engine machine over `ByteMemory` holding `bytesOverflow`. -/
def gmOverflow : GenericEngine.Subleq GenericEngine.ByteMemory :=
  ⟨bytesOverflow, 0⟩

/-- A usize-engine machine (`w = 8`, capacity 4) whose cell 0 holds `-1`:
the fetched operand `A` is a value with no valid address index. -/
def umNegOperand : UsizeEngine.Subleq 8 4 :=
  ⟨⟨fun i => match i.val with | 0 => -1 | _ => 0⟩, 0⟩

/-- A usize-engine machine (`w = 8`, capacity 8) with cells
`[3, 4, 0, 1, -128, 0, 0, 0]`: executing `(3, 4, 0)` subtracts `1` from
`-128`, which overflows `i8`. -/
def umOverflow : UsizeEngine.Subleq 8 8 :=
  ⟨⟨fun i => match i.val with | 0 => 3 | 1 => 4 | 2 => 0 | 3 => 1 | 4 => -128 | _ => 0⟩, 0⟩

/-- The spec's concrete decrement-and-copy scenario on the usize engine
(`w = 8`, capacity 16): cells `[3, 4, 0, 5, 5, 0, ...]`. -/
def umScenario : UsizeEngine.Subleq 8 16 :=
  ⟨⟨fun i => match i.val with | 0 => 3 | 1 => 4 | 2 => 0 | 3 => 5 | 4 => 5 | _ => 0⟩, 0⟩

/-- The state reached from `umScenario` by one `step`: cell 4 overwritten
with `5 - 5 = 0` and the counter set to `C = 0` (branch taken). -/
def umScenarioAfter : UsizeEngine.Subleq 8 16 :=
  ⟨⟨Function.update umScenario.mem.cells (4 : Fin 16) 0⟩, 0⟩

/-- A usize-engine machine (capacity 2) whose counter 5 is out of range. -/
def umBadCounter : UsizeEngine.Subleq 8 2 :=
  ⟨⟨fun _ => 0⟩, 5⟩

/-- A trait `get` capability that succeeds only at index 0 (used to exercise
the fetch's error propagation at a concrete input). -/
def getOnlyZero : Unit → Int → Except UsizeEngine.Error Int := fun _ i =>
  if i = 0 then .ok 7 else .error (.addressOutOfRange 9)

/-- A trait `get` capability returning every index as its own value. -/
def getIdentity : Unit → Int → Except UsizeEngine.Error Int := fun _ i => .ok i

/-! Arithmetic facts about the wrapping operations. -/

theorem wrap_inRangeS (w : Nat) (v : Int) : inRangeS w (wrap w v) := by
  unfold inRangeS wrap
  have hpos : (0 : Int) < 2 ^ w := by positivity
  have h1 : 0 ≤ (v + 2 ^ (w - 1)) % 2 ^ w := Int.emod_nonneg _ (by positivity)
  have h2 : (v + 2 ^ (w - 1)) % 2 ^ w < 2 ^ w := Int.emod_lt_of_pos _ hpos
  have h3 : (2 : Int) ^ w ≤ 2 * 2 ^ (w - 1) := by
    cases w with
    | zero => norm_num
    | succ n =>
      rw [Nat.add_sub_cancel, pow_succ]
      linarith [pow_pos (show (0 : Int) < 2 by norm_num) n]
  constructor
  · linarith
  · linarith

theorem wrap_emod (w : Nat) (v : Int) : wrap w v % 2 ^ w = v % 2 ^ w := by
  unfold wrap
  have step1 : ((v + 2 ^ (w - 1)) % 2 ^ w - 2 ^ (w - 1)) % 2 ^ w
      = (v + 2 ^ (w - 1) - 2 ^ (w - 1)) % 2 ^ w := by
    rw [Int.sub_emod, Int.emod_emod_of_dvd _ dvd_rfl, ← Int.sub_emod]
  rw [step1, add_sub_cancel_right]

theorem checkedSub_some {w : Nat} {x y r : Int} (h : checkedSub w x y = some r) :
    r = x - y := by
  unfold checkedSub at h
  split at h
  · exact (Option.some.inj h).symm
  · exact Option.noConfusion h

/-! Basic facts about the reference `LinearMemory`. -/

namespace UsizeEngine

theorem LinearMemory.get_of_lt {SIZE : Nat} (m : LinearMemory SIZE) {address : Nat}
    (h : address < SIZE) : m.get address = .ok (m.cells ⟨address, h⟩) :=
  dif_pos h

theorem LinearMemory.get_of_ge {SIZE : Nat} (m : LinearMemory SIZE) {address : Nat}
    (h : SIZE ≤ address) : m.get address = .error (.addressOutOfRange address) :=
  dif_neg (Nat.not_lt.mpr h)

theorem LinearMemory.lt_of_get_ok {SIZE : Nat} {m : LinearMemory SIZE}
    {address : Nat} {v : Int} (h : m.get address = .ok v) : address < SIZE := by
  by_contra hge
  rw [LinearMemory.get_of_ge m (Nat.le_of_not_lt hge)] at h
  exact Except.noConfusion h

theorem LinearMemory.set_of_lt {SIZE : Nat} (m : LinearMemory SIZE) {address : Nat}
    (h : address < SIZE) (v : Int) :
    m.set address v = (⟨Function.update m.cells ⟨address, h⟩ v⟩, .ok ()) :=
  dif_pos h

theorem LinearMemory.set_of_ge {SIZE : Nat} (m : LinearMemory SIZE) {address : Nat}
    (h : SIZE ≤ address) (v : Int) :
    m.set address v = (m, .error (.addressOutOfRange address)) :=
  dif_neg (Nat.not_lt.mpr h)

theorem LinearMemory.get_error_shape {SIZE : Nat} {m : LinearMemory SIZE}
    {address : Nat} {e : Error} (h : m.get address = .error e) :
    e = .addressOutOfRange address := by
  unfold LinearMemory.get at h
  split at h
  · exact Except.noConfusion h
  · exact (Except.error.inj h).symm

theorem LinearMemory.set_error_shape {SIZE : Nat} {m m' : LinearMemory SIZE}
    {address : Nat} {v : Int} {e : Error}
    (h : m.set address v = (m', .error e)) : e = .addressOutOfRange address := by
  unfold LinearMemory.set at h
  split at h
  · exact absurd (congrArg Prod.snd h) (by simp)
  · exact (Except.error.inj (congrArg Prod.snd h)).symm

theorem LinearMemory.set_error_eq {SIZE : Nat} {m m' : LinearMemory SIZE}
    {address : Nat} {v : Int} {e : Error}
    (h : m.set address v = (m', .error e)) : m' = m := by
  unfold LinearMemory.set at h
  split at h
  · exact absurd (congrArg Prod.snd h) (by simp)
  · exact (congrArg Prod.fst h).symm

theorem LinearMemory.get_set_self {SIZE : Nat} (m : LinearMemory SIZE)
    {address : Nat} (h : address < SIZE) (v : Int) :
    ((m.set address v).1).get address = .ok v := by
  rw [LinearMemory.set_of_lt m h v, LinearMemory.get_of_lt _ h]
  simp [Function.update_same]

theorem LinearMemory.get_set_ne {SIZE : Nat} (m : LinearMemory SIZE)
    {address i : Nat} (hne : i ≠ address) (v : Int) :
    ((m.set address v).1).get i = m.get i := by
  unfold LinearMemory.set
  split
  · next hlt =>
    by_cases hi : i < SIZE
    · rw [LinearMemory.get_of_lt _ hi, LinearMemory.get_of_lt _ hi]
      have : (⟨i, hi⟩ : Fin SIZE) ≠ ⟨address, hlt⟩ := by
        simp [Fin.ext_iff]; exact hne
      simp [Function.update_noteq this]
    · rw [LinearMemory.get_of_ge _ (Nat.le_of_not_lt hi),
        LinearMemory.get_of_ge _ (Nat.le_of_not_lt hi)]
  · rfl

/-- Whenever `step` returns an error, the machine state it returns is the
state it started from: every error path of `Subleq::step` over `LinearMemory`
returns before mutating anything (a failing `LinearMemory::set` leaves the
array untouched). -/
theorem step_error_state {w SIZE : Nat} {s s' : Subleq w SIZE} {e : Error}
    (h : s.step = some (s', .error e)) : s' = s := by
  unfold Subleq.step at h
  repeat' split at h
  all_goals try simp at h
  all_goals
    first
    | exact h.1.symm
    | (rename_i mem' e₁ heq
       obtain rfl := LinearMemory.set_error_eq heq
       exact h.1.symm)

end UsizeEngine

/-! The claims. -/

/-- C1: the claim states that when `step` completes successfully the program
counter becomes `C` when `M[B] - M[A] ≤ 0` and `old counter + 3` otherwise.
The generic engine of `src/src/lib.rs` instead branches on the OLD value at
`B` (`if !b_value.is_positive()`), contradicting its own doc comment
("if the above result is less than or equal to 0").  At the `ByteMemory`
machine `gm3405` the fetched operands are `(A, B, C) = (3, 4, 0)`,
`M[A] = 5`, `M[B] = 3`, the subtraction result is `-2 ≤ 0`, yet the step
succeeds with counter `0 + 3 = 3` instead of `C = 0`. -/
theorem C1_generic_branch_uses_old_value :
    GenericEngine.instruction 8 GenericEngine.ByteMemory.get gm3405.mem
        gm3405.curr_instruction = .ok (3, 4, 0) ∧
    GenericEngine.ByteMemory.get gm3405.mem 3 = .ok 5 ∧
    GenericEngine.ByteMemory.get gm3405.mem 4 = .ok 3 ∧
    wrappingSub 8 3 5 ≤ 0 ∧
    (GenericEngine.Subleq.step 8 GenericEngine.ByteMemory.get
        GenericEngine.ByteMemory.set gm3405).2 = .ok () ∧
    (GenericEngine.Subleq.step 8 GenericEngine.ByteMemory.get
        GenericEngine.ByteMemory.set gm3405).1.curr_instruction = 3 ∧
    gm3405.curr_instruction = 0 ∧ (3 : Int) ≠ 0 :=
  ⟨rfl, rfl, rfl, by decide, rfl, rfl, rfl, by decide⟩

/-- C3: the claim states that when the write of the result to `B` fails the
program counter is unchanged.  In the generic engine of `src/src/lib.rs` the
counter is updated BEFORE `self.mem.set(&b, result)?`, so over a `Memory`
instance whose cells are read-only the failing write returns with the counter
already moved from 0 to 3. -/
theorem C3_generic_pc_moves_before_failed_write :
    gm3405.curr_instruction = 0 ∧
    (GenericEngine.Subleq.step 8 GenericEngine.ReadOnlyByteMemory.get
        GenericEngine.ReadOnlyByteMemory.set gm3405).2
      = .error (.immutableAddress 4) ∧
    (GenericEngine.Subleq.step 8 GenericEngine.ReadOnlyByteMemory.get
        GenericEngine.ReadOnlyByteMemory.set gm3405).1.curr_instruction = 3 :=
  ⟨rfl, rfl, rfl⟩

/-- C4 counterexample: the usize engine surfaces no conversion error.  At
`umNegOperand` the fetched operand value `-1` has no valid address index;
`step` silently converts it with the `as` cast to `2 ^ 64 - 1` and fails with
the MEMORY error `AddressOutOfRange(2 ^ 64 - 1)` — the error taxonomy of
`src/subleq/src/error.rs` has no `AddressConversionFailed` member at all. -/
theorem C4_counterexample_silent_truncation :
    asUsize (-1) = 2 ^ 64 - 1 ∧
    umNegOperand.mem.get 0 = .ok (-1) ∧
    UsizeEngine.Subleq.step umNegOperand =
      some (umNegOperand, .error (.addressOutOfRange (2 ^ 64 - 1))) :=
  ⟨rfl, rfl, rfl⟩

/-- C4 (amended): fetched operand values are converted to addresses by the
wrapping `as` cast (reduction modulo `2 ^ 64`); a value with no valid index is
silently truncated, and the only failure it can cause is the memory error
`AddressOutOfRange` at the truncated address.  Moreover every error `step`
ever returns over `LinearMemory` is an `AddressOutOfRange` memory error. -/
theorem C4_conversion_is_wrapping_cast :
    (∀ (w SIZE : Nat) (s : UsizeEngine.Subleq w SIZE) (va vb vc : Int),
      s.mem.get s.curr_instruction = .ok va →
      s.mem.get (usizeWrappingAdd s.curr_instruction 1) = .ok vb →
      s.mem.get (usizeWrappingAdd s.curr_instruction 2) = .ok vc →
      SIZE ≤ asUsize va →
      s.step = some (s, .error (.addressOutOfRange (asUsize va)))) ∧
    (∀ (w SIZE : Nat) (s s' : UsizeEngine.Subleq w SIZE) (e : UsizeEngine.Error),
      s.step = some (s', .error e) → ∃ n, e = .addressOutOfRange n) := by
  constructor
  · intro w SIZE s va vb vc hva hvb hvc hge
    unfold UsizeEngine.Subleq.step
    simp only [hva, hvb, hvc, UsizeEngine.LinearMemory.get_of_ge s.mem hge]
  · intro w SIZE s s' e h
    unfold UsizeEngine.Subleq.step at h
    repeat' split at h
    all_goals try simp at h
    all_goals
      first
      | (rename_i e₁ heq
         exact ⟨_, h.2.symm.trans (UsizeEngine.LinearMemory.get_error_shape heq)⟩)
      | (rename_i mem' e₁ heq
         exact ⟨_, h.2.symm.trans (UsizeEngine.LinearMemory.set_error_shape heq)⟩)

/-- Witness for C4: at `umNegOperand` the fetch succeeds with operand value
`-1`, whose truncation `2 ^ 64 - 1` is out of range for capacity 4. -/
theorem C4_conversion_is_wrapping_cast_witness :
    UsizeEngine.Subleq.step umNegOperand =
      some (umNegOperand, .error (.addressOutOfRange (asUsize (-1)))) :=
  C4_conversion_is_wrapping_cast.1 8 4 umNegOperand (-1) 0 0 rfl rfl rfl
    (by decide)

/-- C5: over the reference `LinearMemory`, a `step` that returns
`AddressOutOfRange` leaves the machine exactly as it was, so calling `step`
again returns the very same error with the state again unchanged. -/
theorem C5_idempotent_failure :
    ∀ (w SIZE : Nat) (s s' : UsizeEngine.Subleq w SIZE) (k : Nat),
      s.step = some (s', .error (.addressOutOfRange k)) →
      s' = s ∧ s'.step = some (s', .error (.addressOutOfRange k)) := by
  intro w SIZE s s' k h
  obtain rfl := UsizeEngine.step_error_state h
  exact ⟨rfl, h⟩

/-- Witness for C5: the capacity-2 machine with counter 5 fails with
`AddressOutOfRange 5`, and stepping again reproduces it. -/
theorem C5_idempotent_failure_witness :
    umBadCounter = umBadCounter ∧
      UsizeEngine.Subleq.step umBadCounter =
        some (umBadCounter, .error (.addressOutOfRange 5)) :=
  C5_idempotent_failure 8 2 umBadCounter umBadCounter 5 rfl

/-- C6: for the reference `LinearMemory` of capacity `SIZE`, `get` and `set`
at any address `≥ SIZE` fail with `AddressOutOfRange` carrying that address,
the failing `set` returns the memory with every cell unchanged, and both
succeed at every address `< SIZE`. -/
theorem C6_linear_memory_bounds :
    ∀ (SIZE : Nat) (m : UsizeEngine.LinearMemory SIZE) (address : Nat)
      (value : Int),
      (SIZE ≤ address →
        m.get address = .error (.addressOutOfRange address) ∧
        m.set address value = (m, .error (.addressOutOfRange address))) ∧
      (address < SIZE →
        (∃ x, m.get address = .ok x) ∧ ∃ m', m.set address value = (m', .ok ())) := by
  intro SIZE m address value
  constructor
  · intro h
    exact ⟨UsizeEngine.LinearMemory.get_of_ge m h,
      UsizeEngine.LinearMemory.set_of_ge m h value⟩
  · intro h
    exact ⟨⟨_, UsizeEngine.LinearMemory.get_of_lt m h⟩,
      ⟨_, UsizeEngine.LinearMemory.set_of_lt m h value⟩⟩

/-- Witness for C6: capacity 4, failing address 7, succeeding address 2. -/
theorem C6_linear_memory_bounds_witness :
    ((UsizeEngine.LinearMemory.default 4).get 7 =
        .error (.addressOutOfRange 7) ∧
      (UsizeEngine.LinearMemory.default 4).set 7 9 =
        (UsizeEngine.LinearMemory.default 4, .error (.addressOutOfRange 7))) ∧
    ((∃ x, (UsizeEngine.LinearMemory.default 4).get 2 = .ok x) ∧
      ∃ m', (UsizeEngine.LinearMemory.default 4).set 2 9 = (m', .ok ())) :=
  ⟨(C6_linear_memory_bounds 4 (UsizeEngine.LinearMemory.default 4) 7 9).1
      (by decide),
    (C6_linear_memory_bounds 4 (UsizeEngine.LinearMemory.default 4) 2 9).2
      (by decide)⟩

/-- C7: the claim states that the subtraction of the two operand values can
never abort the computation.  The usize engine of `src/subleq/src/lib.rs`
computes `b_value - a_value` with the plain `-`; at `umOverflow` it subtracts
`1` from `-128` on an 8-bit value type, which overflows, so the step aborts
(`none`, a panic under overflow checks) instead of returning a value.  (The
generic engine of `src/src/lib.rs` uses `wrapping_sub` and is immune.) -/
theorem C7_usize_subtraction_aborts :
    umOverflow.mem.get 4 = .ok (-128) ∧
    umOverflow.mem.get 3 = .ok 1 ∧
    checkedSub 8 (-128) 1 = none ∧
    UsizeEngine.Subleq.step umOverflow = none :=
  ⟨rfl, rfl, rfl, rfl⟩

/-- C2 counterexample: the claim reads `M'[B] = M[B] - M[A]` with the exact
difference.  In the generic engine of `src/src/lib.rs` the step at
`gmOverflow` completes successfully with fetched operands `(3, 4, 0)`,
`M[A] = 1`, `M[B] = -128`, and writes the WRAPPED 8-bit difference `127` to
`B`, not the exact difference `-129`. -/
theorem C2_counterexample_wrapped_difference :
    GenericEngine.instruction 8 GenericEngine.ByteMemory.get gmOverflow.mem
        gmOverflow.curr_instruction = .ok (3, 4, 0) ∧
    (GenericEngine.Subleq.step 8 GenericEngine.ByteMemory.get
        GenericEngine.ByteMemory.set gmOverflow).2 = .ok () ∧
    (GenericEngine.Subleq.step 8 GenericEngine.ByteMemory.get
        GenericEngine.ByteMemory.set gmOverflow).1.mem (GenericEngine.byteIdx 4)
      = 127 ∧
    gmOverflow.mem (GenericEngine.byteIdx 4) -
        gmOverflow.mem (GenericEngine.byteIdx 3) = -129 ∧
    (127 : Int) ≠ -129 :=
  ⟨rfl, rfl, rfl, rfl, by decide⟩

/-- C2 (amended): after a successful `step`, `M'[B]` holds `M[B] - M[A]`
computed under the engine's declared subtraction — the plain overflow-checked
subtraction in the usize engine (hence the exact difference whenever the step
completes), the wrapping subtraction modulo `2 ^ w` in the generic engine —
and every cell other than `B` is unchanged. -/
theorem C2_subtract_and_frame :
    (∀ (w SIZE : Nat) (s s' : UsizeEngine.Subleq w SIZE) (va vb vc av bv : Int),
      s.mem.get s.curr_instruction = .ok va →
      s.mem.get (usizeWrappingAdd s.curr_instruction 1) = .ok vb →
      s.mem.get (usizeWrappingAdd s.curr_instruction 2) = .ok vc →
      s.mem.get (asUsize va) = .ok av →
      s.mem.get (asUsize vb) = .ok bv →
      s.step = some (s', .ok ()) →
      s'.mem.get (asUsize vb) = .ok (bv - av) ∧
        ∀ i, i ≠ asUsize vb → s'.mem.get i = s.mem.get i) ∧
    (∀ (w : Nat) (s : GenericEngine.Subleq GenericEngine.ByteMemory)
      (a b c av bv : Int),
      GenericEngine.instruction w GenericEngine.ByteMemory.get s.mem
          s.curr_instruction = .ok (a, b, c) →
      GenericEngine.ByteMemory.get s.mem a = .ok av →
      GenericEngine.ByteMemory.get s.mem b = .ok bv →
      (GenericEngine.Subleq.step w GenericEngine.ByteMemory.get
            GenericEngine.ByteMemory.set s).1.mem (GenericEngine.byteIdx b)
          = wrappingSub w bv av ∧
        ∀ j : Fin 256, j ≠ GenericEngine.byteIdx b →
          (GenericEngine.Subleq.step w GenericEngine.ByteMemory.get
              GenericEngine.ByteMemory.set s).1.mem j = s.mem j) := by
  constructor
  · intro w SIZE s s' va vb vc av bv hva hvb hvc hga hgb hstep
    unfold UsizeEngine.Subleq.step at hstep
    simp only [hva, hvb, hvc, hga, hgb] at hstep
    cases hcs : checkedSub w bv av with
    | none =>
      simp only [hcs] at hstep
      exact Option.noConfusion hstep
    | some result =>
      simp only [hcs] at hstep
      have hblt : asUsize vb < SIZE := UsizeEngine.LinearMemory.lt_of_get_ok hgb
      simp only [UsizeEngine.LinearMemory.set_of_lt s.mem hblt result] at hstep
      have hres : result = bv - av := checkedSub_some hcs
      have hmem : s'.mem = (s.mem.set (asUsize vb) result).1 := by
        rw [UsizeEngine.LinearMemory.set_of_lt s.mem hblt result]
        split at hstep <;>
          (simp only [Option.some.injEq, Prod.mk.injEq] at hstep
           rw [← hstep.1])
      refine ⟨?_, ?_⟩
      · rw [hmem, UsizeEngine.LinearMemory.get_set_self s.mem hblt result, hres]
      · intro i hi
        rw [hmem, UsizeEngine.LinearMemory.get_set_ne s.mem hi result]
  · intro w s a b c av bv hins hga hgb
    unfold GenericEngine.Subleq.step
    simp only [hins, hga, hgb, GenericEngine.ByteMemory.set]
    constructor
    · simp [Function.update_same]
    · intro j hj
      simp [Function.update_noteq hj]

/-- Witness for C2: the spec's decrement-and-copy scenario on the usize
engine (cell 4 becomes `5 - 5`, cell 7 untouched), and the wrapped write of
the generic engine at `gm3405`. -/
theorem C2_subtract_and_frame_witness :
    umScenarioAfter.mem.get 4 = .ok (5 - 5) ∧
    umScenarioAfter.mem.get 7 = umScenario.mem.get 7 ∧
    (GenericEngine.Subleq.step 8 GenericEngine.ByteMemory.get
        GenericEngine.ByteMemory.set gm3405).1.mem (GenericEngine.byteIdx 4)
      = wrappingSub 8 3 5 :=
  ⟨(C2_subtract_and_frame.1 8 16 umScenario umScenarioAfter 3 4 0 5 5
      rfl rfl rfl rfl rfl rfl).1,
   (C2_subtract_and_frame.1 8 16 umScenario umScenarioAfter 3 4 0 5 5
      rfl rfl rfl rfl rfl rfl).2 7 (by decide),
   (C2_subtract_and_frame.2 8 gm3405 3 4 0 5 3 rfl rfl rfl).1⟩

/-- C8: the provided `Memory::instruction` of `src/src/lib.rs` behaves as
three sequential `get` calls at `index`, `index + 1`, `index + 2` (the
increments being the engine's wrapping additions): the first failing `get`
determines the result — the conclusions below do not constrain `get` at the
later addresses — and when all three succeed it returns the triple of their
values. -/
theorem C8_instruction_three_sequential_gets :
    ∀ {Mem E : Type} (w : Nat) (get : Mem → Int → Except E Int) (mem : Mem)
      (index : Int),
      (∀ e, get mem index = .error e →
        GenericEngine.instruction w get mem index = .error e) ∧
      (∀ a e, get mem index = .ok a →
        get mem (wrappingAdd w index 1) = .error e →
        GenericEngine.instruction w get mem index = .error e) ∧
      (∀ a b e, get mem index = .ok a →
        get mem (wrappingAdd w index 1) = .ok b →
        get mem (wrappingAdd w index 2) = .error e →
        GenericEngine.instruction w get mem index = .error e) ∧
      (∀ a b c, get mem index = .ok a →
        get mem (wrappingAdd w index 1) = .ok b →
        get mem (wrappingAdd w index 2) = .ok c →
        GenericEngine.instruction w get mem index = .ok (a, b, c)) := by
  intro Mem E w get mem index
  refine ⟨?_, ?_, ?_, ?_⟩
  · intro e h1
    unfold GenericEngine.instruction
    simp only [h1]
  · intro a e h1 h2
    unfold GenericEngine.instruction
    simp only [h1, h2]
  · intro a b e h1 h2 h3
    unfold GenericEngine.instruction
    simp only [h1, h2, h3]
  · intro a b c h1 h2 h3
    unfold GenericEngine.instruction
    simp only [h1, h2, h3]

/-- Witness for C8: an all-succeeding `get` yields the triple of the three
cells; a `get` failing at the second address makes the fetch return exactly
that error. -/
theorem C8_instruction_three_sequential_gets_witness :
    GenericEngine.instruction 8 getIdentity () 0 = .ok (0, 1, 2) ∧
    GenericEngine.instruction 8 getOnlyZero () 0 =
      .error (.addressOutOfRange 9) :=
  ⟨(C8_instruction_three_sequential_gets 8 getIdentity () 0).2.2.2 0 1 2
      rfl rfl rfl,
   (C8_instruction_three_sequential_gets 8 getOnlyZero () 0).2.1 7
      (.addressOutOfRange 9) rfl rfl⟩

/-- C10: the generic engine's overflow policy is wrapping (modulo `2 ^ w`)
arithmetic applied uniformly: one successful-fetch step is exactly a write of
`wrappingSub w bv av` to `B` with the counter moved to `wrappingAdd w pc 3`
(or `c`), and each wrapping operation used — the subtraction, the counter
advance by 3, and the fetch increments by 1 and 2 — lands in the `w`-bit
range (no abort, no saturation) and is congruent modulo `2 ^ w` to the ideal
result. -/
theorem C10_generic_wrapping_policy :
    ∀ {Mem E : Type} (w : Nat) (get : Mem → Int → Except E Int)
      (set : Mem → Int → Int → Mem × Except E Unit)
      (s : GenericEngine.Subleq Mem) (a b c av bv : Int),
      GenericEngine.instruction w get s.mem s.curr_instruction = .ok (a, b, c) →
      get s.mem a = .ok av → get s.mem b = .ok bv →
      GenericEngine.Subleq.step w get set s =
        ({ mem := (set s.mem b (wrappingSub w bv av)).1,
           curr_instruction :=
             if 0 < bv then wrappingAdd w s.curr_instruction 3 else c },
          (set s.mem b (wrappingSub w bv av)).2) ∧
      inRangeS w (wrappingSub w bv av) ∧
      wrappingSub w bv av % 2 ^ w = (bv - av) % 2 ^ w ∧
      inRangeS w (wrappingAdd w s.curr_instruction 3) ∧
      wrappingAdd w s.curr_instruction 3 % 2 ^ w
        = (s.curr_instruction + 3) % 2 ^ w ∧
      inRangeS w (wrappingAdd w s.curr_instruction 1) ∧
      wrappingAdd w s.curr_instruction 1 % 2 ^ w
        = (s.curr_instruction + 1) % 2 ^ w ∧
      inRangeS w (wrappingAdd w s.curr_instruction 2) ∧
      wrappingAdd w s.curr_instruction 2 % 2 ^ w
        = (s.curr_instruction + 2) % 2 ^ w := by
  intro Mem E w get set s a b c av bv hins hga hgb
  refine ⟨?_, wrap_inRangeS w _, wrap_emod w _, wrap_inRangeS w _,
    wrap_emod w _, wrap_inRangeS w _, wrap_emod w _, wrap_inRangeS w _,
    wrap_emod w _⟩
  unfold GenericEngine.Subleq.step
  simp only [hins, hga, hgb]
  rcases hset : set s.mem b (wrappingSub w bv av) with ⟨mem', res⟩
  cases res with
  | error e => simp only [hset]
  | ok u =>
    cases u
    simp only [hset]

/-- Witness for C10: the wrapping characterization evaluated on `gm3405`. -/
theorem C10_generic_wrapping_policy_witness :
    GenericEngine.Subleq.step 8 GenericEngine.ByteMemory.get
        GenericEngine.ByteMemory.set gm3405 =
      ({ mem := (GenericEngine.ByteMemory.set gm3405.mem 4
            (wrappingSub 8 3 5)).1,
         curr_instruction :=
           if (0 : Int) < 3 then wrappingAdd 8 gm3405.curr_instruction 3
           else 0 },
        (GenericEngine.ByteMemory.set gm3405.mem 4 (wrappingSub 8 3 5)).2) ∧
    inRangeS 8 (wrappingSub 8 3 5) ∧
    wrappingSub 8 3 5 % 2 ^ 8 = (3 - 5) % 2 ^ 8 :=
  ⟨(C10_generic_wrapping_policy 8 GenericEngine.ByteMemory.get
      GenericEngine.ByteMemory.set gm3405 3 4 0 5 3 rfl rfl rfl).1,
   (C10_generic_wrapping_policy 8 GenericEngine.ByteMemory.get
      GenericEngine.ByteMemory.set gm3405 3 4 0 5 3 rfl rfl rfl).2.1,
   (C10_generic_wrapping_policy 8 GenericEngine.ByteMemory.get
      GenericEngine.ByteMemory.set gm3405 3 4 0 5 3 rfl rfl rfl).2.2.1⟩

/-- C9: for the reference `LinearMemory`, writing `value` at an in-range
address and then reading the same address returns exactly `value`. -/
theorem C9_round_trip :
    ∀ (SIZE : Nat) (m : UsizeEngine.LinearMemory SIZE) (address : Nat)
      (value : Int), address < SIZE →
      ((m.set address value).1).get address = .ok value := by
  intro SIZE m address value h
  exact UsizeEngine.LinearMemory.get_set_self m h value

/-- Witness for C9: write `-7` at address 11 of a capacity-16 memory. -/
theorem C9_round_trip_witness :
    (((UsizeEngine.LinearMemory.default 16).set 11 (-7)).1).get 11 =
      .ok (-7) :=
  C9_round_trip 16 (UsizeEngine.LinearMemory.default 16) 11 (-7) (by decide)

end SubleqModel
